import Mathlib

/-!
# Verification of the block-preventer-bridge scheduling and distribution engine

This file is a shallow embedding, in Lean 4, of the core algorithms of the
`block-preventer-bridge` backend:

* `GlobalQueueService.get_global_next_slot` / `schedule_recipients` and the
  `_interleave_recipients` helper (`app/services/global_queue_service.py`),
* the open-chat scheduling loop of `MessageService.send_open_chat`
  (`app/services/message_service.py`, lines 91-195),
* the distribution strategies `_round_robin`, `_random` and `_weighted`
  (`app/services/distribution_service.py`),
* the cooldown calculation `CooldownService.calculate_cooldown`
  (`app/services/cooldown_service.py`),
* the queue processor step `MessageService._process_queue_item` and the
  statistics update `MessageService._update_profile_stats`.

Timestamps are modelled as rationals (seconds relative to an arbitrary
epoch); Python float division such as `cooldown_seconds / num_profiles`
becomes exact division in `ℚ`.  Database state (waiting queue items,
profile rows) is made explicit as record values.  `datetime.now()` is a
parameter `now`, held fixed across one scheduling operation.
-/

namespace BPB

/-- A waiting queue row reduced to the fields the scheduler reads:
the owning profile id and `scheduled_send_at`. -/
structure WaitingItem where
  profileId : Nat
  sendAt : ℚ
deriving DecidableEq, Repr

/-- Persisted state read by `GlobalQueueService.get_global_next_slot`:
the ids of `active` profiles of the package, the `waiting` queue rows,
and each profile's `last_message_at` column. -/
structure GQState where
  activeProfiles : List Nat
  waiting : List WaitingItem
  lastMessageAt : Nat → Option ℚ

/-- Maximum of a list of timestamps, `none` on the empty list
(the SQL `max()` aggregate used on `scheduled_send_at`). -/
def maxTime (ts : List ℚ) : Option ℚ :=
  ts.foldl (fun a t => some (match a with | none => t | some m => max m t)) none

/-- `select max(scheduled_send_at) where profile_id = pid and status = 'waiting'`. -/
def lastWaitingFor (st : GQState) (pid : Nat) : Option ℚ :=
  maxTime ((st.waiting.filter (fun w => w.profileId = pid)).map (·.sendAt))

/-- `select max(scheduled_send_at) where profile_id in active_profile_ids
and status = 'waiting'`. -/
def globalLastWaiting (st : GQState) : Option ℚ :=
  maxTime ((st.waiting.filter (fun w => w.profileId ∈ st.activeProfiles)).map (·.sendAt))

/-- `GlobalQueueService.get_global_next_slot` (global_queue_service.py,
lines 50-140): the next slot for `pid` is the later of the profile-specific
earliest time and the global earliest time, floored at `now`.  Note the
strict `> now` guards taken verbatim from the source: a last scheduled
time that is not strictly in the future is ignored. -/
def getGlobalNextSlot (now : ℚ) (st : GQState) (pid : Nat) (cooldownSeconds : ℚ) : ℚ :=
  let numProfiles : Nat := max st.activeProfiles.length 1
  let interProfileGap : ℚ := cooldownSeconds / numProfiles
  let profileEarliest : ℚ :=
    match lastWaitingFor st pid with
    | some t =>
      if t > now then t + cooldownSeconds
      else match st.lastMessageAt pid with
        | some lm => max now (lm + cooldownSeconds)
        | none => now
    | none =>
      match st.lastMessageAt pid with
      | some lm => max now (lm + cooldownSeconds)
      | none => now
  let globalEarliest : ℚ :=
    match globalLastWaiting st with
    | some g => if g > now then g + interProfileGap else now
    | none => now
  let sendAt := max profileEarliest globalEarliest
  if sendAt < now then now else sendAt

/-- Largest recipient-list length in a distribution
(`max(len(recipients) for recipients in distribution.values())`). -/
def maxRecipients (dist : List (Nat × List Nat)) : Nat :=
  dist.foldl (fun a x => max a x.2.length) 0

/-- `GlobalQueueService._interleave_recipients`: round-robin flattening
of a distribution, A1, B1, C1, A2, B2, C2, ... -/
def interleaveRecipients (dist : List (Nat × List Nat)) : List (Nat × Nat) :=
  (List.range (maxRecipients dist)).flatMap
    (fun i => dist.filterMap (fun x => (x.2.get? i).map (fun r => (x.1, r))))

/-- `cooldown_per_profile.get(profile_id_str, 600)`. -/
def lookupCooldown (cds : List (Nat × ℚ)) (pid : Nat) : ℚ :=
  match cds.find? (fun c => c.1 = pid) with
  | some c => c.2
  | none => 600

/-- One iteration of the loop in `GlobalQueueService.schedule_recipients`:
compute the slot from the current state, create the waiting queue row
(the `flush` makes it visible to the next iteration), record the item. -/
def scheduleStep (now : ℚ) (cds : List (Nat × ℚ)) (acc : GQState × List (Nat × Nat × ℚ))
    (pr : Nat × Nat) : GQState × List (Nat × Nat × ℚ) :=
  let t := getGlobalNextSlot now acc.1 pr.1 (lookupCooldown cds pr.1)
  ({ acc.1 with waiting := acc.1.waiting ++ [⟨pr.1, t⟩] }, acc.2 ++ [(pr.1, pr.2, t)])

/-- `GlobalQueueService.schedule_recipients`: interleave the distribution,
then schedule one (profile, recipient) pair at a time, persisting each
item before the next slot is computed.  Returns the final queue state and
the created items as (profile, recipient, scheduled_send_at). -/
def scheduleRecipients (now : ℚ) (st : GQState) (cds : List (Nat × ℚ))
    (dist : List (Nat × List Nat)) : GQState × List (Nat × Nat × ℚ) :=
  (interleaveRecipients dist).foldl (scheduleStep now cds) (st, [])

/-- Scheduling the recipients of `pairs` one request at a time: each single
(profile, recipient) pair is passed to `scheduleRecipients` as a
one-recipient distribution, against the state left by the previous request. -/
def scheduleOneByOne (now : ℚ) (st : GQState) (cds : List (Nat × ℚ))
    (pairs : List (Nat × Nat)) : GQState × List (Nat × Nat × ℚ) :=
  pairs.foldl
    (fun acc pr =>
      let res := scheduleRecipients now acc.1 cds [(pr.1, [pr.2])]
      (res.1, acc.2 ++ res.2))
    (st, [])

/-- The reference-time computation of `MessageService.send_open_chat`
(message_service.py, lines 98-116): start from `now`, move up to the
profile's last pending `waiting` item if that is later, then move up to
`last_message_at + cooldown` if that is later still.  Note that the last
pending time is used as-is, without adding the cooldown. -/
def openChatReference (now : ℚ) (lastPending : Option ℚ) (lastMsgAt : Option ℚ)
    (cooldownSecs : ℚ) : ℚ :=
  let ref := now
  let ref :=
    match lastPending with
    | some t => if t > ref then t else ref
    | none => ref
  match lastMsgAt with
  | some lm => if lm + cooldownSecs > ref then lm + cooldownSecs else ref
  | none => ref

/-- The per-profile queue-item creation loop of `MessageService.send_open_chat`
(message_service.py, lines 121-195, with `send_immediately = False`):
recipient `i` of the profile is scheduled at `base_time + cooldown * i`.
Returns (recipient, scheduled_send_at) pairs. -/
def openChatScheduleProfile (now : ℚ) (lastPending : Option ℚ) (lastMsgAt : Option ℚ)
    (cooldownSecs : ℚ) (recipients : List Nat) : List (Nat × ℚ) :=
  let base := openChatReference now lastPending lastMsgAt cooldownSecs
  recipients.enum.map (fun ir => (ir.2, base + cooldownSecs * (ir.1 : ℚ)))

/-- One `send_open_chat` request for a single profile against an explicit
set of that profile's `waiting` item times: the request reads
`last_pending` as the SQL max over the waiting items (message_service.py
lines 91-97), schedules its recipients through the loop of lines 121-195,
and persists the new items as `waiting` rows.  Returns the extended
waiting set and the created (recipient, scheduled_send_at) items, so that
consecutive requests can be chained. -/
def openChatRequest (now : ℚ) (waiting : List ℚ) (lastMsgAt : Option ℚ)
    (cooldownSecs : ℚ) (recipients : List Nat) : List ℚ × List (Nat × ℚ) :=
  let items := openChatScheduleProfile now (maxTime waiting) lastMsgAt cooldownSecs recipients
  (waiting ++ items.map (fun x => x.2), items)

/-- Pairwise lower-bound spacing of a list of timestamps: any two entries
are at least `gap` apart.  This is the spacing property the spec's
invariants section asserts of `waiting` queue items. -/
def pairSpacingOK (gap : ℚ) (ts : List ℚ) : Prop :=
  ts.Pairwise (fun a b => gap ≤ |a - b|)

instance (gap : ℚ) (ts : List ℚ) : Decidable (pairSpacingOK gap ts) :=
  inferInstanceAs (Decidable (ts.Pairwise _))

/-! ## Distribution strategies (`app/services/distribution_service.py`) -/

/-- An active profile as the distribution service sees it: its id, its
`weight_score`, its statistics counter `messages_sent_today`, its count of
pending `waiting` queue items, and its optional per-profile
`max_messages_per_day` override. -/
structure DProfile where
  pid : Nat
  weightScore : ℚ
  sentToday : Nat
  pending : Nat
  dailyOverride : Option Nat
deriving DecidableEq

/-- `_get_profile_limit(profile, package, "max_messages_per_day")`:
per-profile override if set, otherwise the package default. -/
def effDaily (pkgDaily : Nat) (p : DProfile) : Nat :=
  p.dailyOverride.getD pkgDaily

/-- The capacity check of `_round_robin` for the profile at list position
`k`: `sent_today + pending + len(distribution[profile_id]) < daily_limit`. -/
def rrHasRoom (pkgDaily : Nat) (ps : List DProfile) (dist : List (List Nat)) (k : Nat) : Bool :=
  match ps.get? k with
  | some p => decide (p.sentToday + p.pending + (dist.getD k []).length < effDaily pkgDaily p)
  | none => false

/-- `distribution[profile_id].append(recipient)` for the profile at
position `k`. -/
def rrAssignAt (dist : List (List Nat)) (k : Nat) (r : Nat) : List (List Nat) :=
  dist.set k ((dist.getD k []) ++ [r])

/-- The recipient loop of `_round_robin` (distribution_service.py, lines
147-170): recipient number `i` targets position `(start + i) % n`; if that
profile is at capacity, the first profile with room among
`(idx + j + 1) % n`, `j = 0 .. n-1`, gets it; if none has room the
recipient is not assigned at all. -/
def rrAssignAux (pkgDaily : Nat) (ps : List DProfile) (start : Nat)
    (dist : List (List Nat)) (i : Nat) : List Nat → List (List Nat)
  | [] => dist
  | r :: rest =>
    let n := ps.length
    let idx := (start + i) % n
    let dist' :=
      if rrHasRoom pkgDaily ps dist idx then rrAssignAt dist idx r
      else
        match (List.range n).find? (fun j => rrHasRoom pkgDaily ps dist ((idx + j + 1) % n)) with
        | some j => rrAssignAt dist ((idx + j + 1) % n) r
        | none => dist
    rrAssignAux pkgDaily ps start dist' (i + 1) rest

/-- The round-robin starting offset: total of `sent_today + pending` over
all profiles, modulo the profile count (distribution_service.py, lines
126-140). -/
def rrStartOffset (ps : List DProfile) : Nat :=
  ((ps.map (fun p => p.sentToday + p.pending)).sum) % ps.length

/-- `DistributionService._round_robin`, with the distribution kept as a
list of recipient lists aligned with `ps`. -/
def roundRobinLists (pkgDaily : Nat) (ps : List DProfile) (recipients : List Nat) :
    List (List Nat) :=
  if ps.length = 0 then []
  else rrAssignAux pkgDaily ps (rrStartOffset ps) (ps.map fun _ => []) 0 recipients

/-- `DistributionService._round_robin` including the final
`{k: v for k, v in distribution.items() if v}` filtering. -/
def roundRobin (pkgDaily : Nat) (ps : List DProfile) (recipients : List Nat) :
    List (Nat × List Nat) :=
  ((ps.map (·.pid)).zip (roundRobinLists pkgDaily ps recipients)).filter
    (fun x => ¬ x.2.isEmpty)

/-- `distribution[pid]` on the association-list representation of the
distribution dict. -/
def lookupDist (dist : List (Nat × List Nat)) (pid : Nat) : List Nat :=
  match dist.find? (fun x => x.1 = pid) with
  | some x => x.2
  | none => []

/-- `distribution[pid].append(r)` on the association list. -/
def addToDist (dist : List (Nat × List Nat)) (pid : Nat) (r : Nat) : List (Nat × List Nat) :=
  match dist with
  | [] => []
  | x :: rest => if x.1 = pid then (x.1, x.2 ++ [r]) :: rest else x :: addToDist rest pid r

/-- The `_random` capacity check for one profile:
`sent_today + pending + len(distribution[pid]) < daily_limit`. -/
def randHasRoom (pkgDaily : Nat) (dist : List (Nat × List Nat)) (p : DProfile) : Bool :=
  decide (p.sentToday + p.pending + (lookupDist dist p.pid).length < effDaily pkgDaily p)

/-- The load key used by `_random`'s least-loaded fallback:
`sent_today + pending + len(distribution[pid])`. -/
def randLoad (dist : List (Nat × List Nat)) (p : DProfile) : Nat :=
  p.sentToday + p.pending + (lookupDist dist p.pid).length

/-- Python's `min(available, key=load)`: the first element attaining the
minimum load. -/
def minByLoad (dist : List (Nat × List Nat)) : List DProfile → Option DProfile
  | [] => none
  | h :: t => some (t.foldl (fun best q => if randLoad dist q < randLoad dist best then q else best) h)

/-- The recipient loop of `_random` (distribution_service.py, lines
179-201).  `random.shuffle` is modelled by the step-indexed parameter
`shuffles`; the shuffled list persists as the `available` list of the next
iteration, as in the source.  Each recipient goes to the first profile of
the shuffled order with room, else to the least-loaded profile; with no
profiles at all it is dropped. -/
def randomAssignAux (pkgDaily : Nat) (shuffles : Nat → List DProfile → List DProfile)
    (k : Nat) (avail : List DProfile) (dist : List (Nat × List Nat)) :
    List Nat → List (Nat × List Nat)
  | [] => dist
  | r :: rest =>
    let avail' := shuffles k avail
    let dist' :=
      match avail'.find? (fun p => randHasRoom pkgDaily dist p) with
      | some p => addToDist dist p.pid r
      | none =>
        match minByLoad dist avail' with
        | some m => addToDist dist m.pid r
        | none => dist
    randomAssignAux pkgDaily shuffles (k + 1) avail' dist' rest

/-- `DistributionService._random`, including the final filtering of empty
entries. -/
def randomAssign (pkgDaily : Nat) (ps : List DProfile)
    (shuffles : Nat → List DProfile → List DProfile) (recipients : List Nat) :
    List (Nat × List Nat) :=
  (randomAssignAux pkgDaily shuffles 0 ps (ps.map fun p => (p.pid, [])) recipients).filter
    (fun x => ¬ x.2.isEmpty)

/-- Total number of recipients assigned by a distribution. -/
def distSize (dist : List (Nat × List Nat)) : Nat :=
  (dist.map (fun x => x.2.length)).sum

/-- `_weighted`'s target share for one profile:
`max(1, int(len(recipients) * (max(weight, 1) / total_weight)))`;
Python `int()` truncates, which on these nonnegative values is the floor. -/
def wShareOf (totalWeight : ℚ) (rsLen : Nat) (p : DProfile) : Nat :=
  max 1 (⌊(rsLen : ℚ) * (max p.weightScore 1 / totalWeight)⌋.toNat)

/-- The first allocation loop of `_weighted` (distribution_service.py,
lines 218-229): walk the profiles in order, give each
`min(share, remaining, capacity)` recipients as a contiguous slice.
Returns the distribution and the next recipient index. -/
def wInitAux (pkgDaily : Nat) (totalWeight : ℚ) (rs : List Nat) :
    List DProfile → Nat → List (Nat × List Nat) × Nat
  | [], idx => ([], idx)
  | p :: rest, idx =>
    let count1 := min (wShareOf totalWeight rs.length p) (rs.length - idx)
    let maxCanSend := effDaily pkgDaily p - p.sentToday - p.pending
    let count := min count1 maxCanSend
    let res := wInitAux pkgDaily totalWeight rs rest (idx + count)
    ((p.pid, (rs.drop idx).take count) :: res.1, res.2)

/-- One full pass of the for-loop inside `_weighted`'s top-up `while`
(distribution_service.py, lines 231-241): walk the profiles, assigning the
next leftover recipient to each profile that still has room. -/
def wPassAux (pkgDaily : Nat) (rs : List Nat) :
    List DProfile → List (Nat × List Nat) → Nat → List (Nat × List Nat) × Nat
  | [], dist, idx => (dist, idx)
  | p :: rest, dist, idx =>
    if rs.length ≤ idx then (dist, idx)
    else if p.sentToday + p.pending + (lookupDist dist p.pid).length < effDaily pkgDaily p then
      wPassAux pkgDaily rs rest (addToDist dist p.pid (rs.getD idx 0)) (idx + 1)
    else
      wPassAux pkgDaily rs rest dist idx

/-- The `while recipient_idx < len(recipients)` top-up loop of `_weighted`,
given `fuel` iterations to finish; the source has no bound, so `none`
means the source loops for at least `fuel` passes. -/
def wTopUp (pkgDaily : Nat) (ps : List DProfile) (rs : List Nat) :
    Nat → List (Nat × List Nat) → Nat → Option (List (Nat × List Nat))
  | 0, dist, idx => if rs.length ≤ idx then some dist else none
  | fuel + 1, dist, idx =>
    if rs.length ≤ idx then some dist
    else
      let di := wPassAux pkgDaily rs ps dist idx
      wTopUp pkgDaily ps rs fuel di.1 di.2

/-- `DistributionService._weighted` with fuelled top-up loop, including
the `total_weight == 0` fallback to round robin and the final filtering
of empty entries.  `none` means the top-up loop did not terminate within
`fuel` passes. -/
def weightedAssign (pkgDaily : Nat) (ps : List DProfile) (rs : List Nat) (fuel : Nat) :
    Option (List (Nat × List Nat)) :=
  let totalWeight : ℚ := (ps.map (fun p => max p.weightScore 1)).sum
  if totalWeight = 0 then some (roundRobin pkgDaily ps rs)
  else
    let di := wInitAux pkgDaily totalWeight rs ps 0
    (wTopUp pkgDaily ps rs fuel di.1 di.2).map (fun d => d.filter (fun x => ¬ x.2.isEmpty))

/-! ## Cooldown calculator (`app/services/cooldown_service.py`) -/

/-- The `Package` configuration columns read by the core
(models.py, `Package`). -/
structure PackageCfg where
  freezeDurationHours : ℤ
  maxMessagesPerDay : Nat
  maxMessagesPerHour : Nat
  rushHourThreshold : Nat
  rushHourMultiplier : ℚ
  quietModeThreshold : Nat
  quietModeMultiplier : ℚ
  retryAttempts : Nat
  retryDelaySeconds : Nat
deriving DecidableEq

/-- The queue-pressure mode labels of `calculate_cooldown`. -/
inductive QueueMode
  | quiet
  | normal
  | rushHour
  | critical
deriving DecidableEq

/-- STEP 1 of `calculate_cooldown` (cooldown_service.py, lines 35-39):
`(24 - freeze_duration_hours) * 60 / max(max_messages_per_day, 1)` minutes,
converted to seconds. -/
def baseCooldownSeconds (pkg : PackageCfg) : ℚ :=
  (((24 - pkg.freezeDurationHours) * 60 : ℤ) : ℚ) / ((max pkg.maxMessagesPerDay 1 : Nat) : ℚ) * 60

/-- STEP 3 of `calculate_cooldown` (lines 66-78): queue mode and
multiplier from the package-wide count of `waiting` items. -/
def queueMultiplier (pkg : PackageCfg) (totalQueueSize : Nat) : QueueMode × ℚ :=
  if 21 ≤ totalQueueSize then (QueueMode.critical, 3)
  else if pkg.rushHourThreshold < totalQueueSize then (QueueMode.rushHour, pkg.rushHourMultiplier)
  else if totalQueueSize ≤ pkg.quietModeThreshold then (QueueMode.quiet, pkg.quietModeMultiplier)
  else (QueueMode.normal, 1)

/-- STEP 4 of `calculate_cooldown` (lines 82-106): trend factor from the
trailing-2h delivered count against `hourly_limit * 2 * 0.8`. -/
def trendAdjustment (pkg : PackageCfg) (actual2h : Nat) : ℚ :=
  let expected : ℚ := (pkg.maxMessagesPerHour : ℚ) * 2 * (4 / 5)
  if 0 < expected then
    if 1 < (actual2h : ℚ) / expected then 13 / 10
    else if (actual2h : ℚ) / expected < 1 / 2 then 4 / 5
    else 1
  else 1

/-- The risk-score factor of `calculate_cooldown` (lines 110-115). -/
def riskMultiplier (riskScore : ℤ) : ℚ :=
  if 80 < riskScore then 2
  else if 50 < riskScore then 3 / 2
  else if 20 < riskScore then 6 / 5
  else 1

/-- The final clamped cooldown of `calculate_cooldown` before `int()`
(line 118): `max(60, min(value, 2400))`, where `value` is the jitter draw
`j` (uniform in `[0.5 * base, 1.5 * base]`) times the queue, trend and
risk factors. -/
def finalCooldownRat (pkg : PackageCfg) (riskScore : ℤ) (totalQueueSize actual2h : Nat)
    (j : ℚ) : ℚ :=
  max 60 (min (j * (queueMultiplier pkg totalQueueSize).2 * trendAdjustment pkg actual2h *
    riskMultiplier riskScore) 2400)

/-- `final_cooldown_seconds = int(final_cooldown)` (line 119); the
clamped value is at least 60, so Python truncation is the floor. -/
def finalCooldownSeconds (pkg : PackageCfg) (riskScore : ℤ) (totalQueueSize actual2h : Nat)
    (j : ℚ) : ℤ :=
  ⌊finalCooldownRat pkg riskScore totalQueueSize actual2h j⌋

/-! ## Queue processor (`MessageService._process_queue_item`) -/

/-- QueueItem lifecycle statuses. -/
inductive QStatus
  | waiting
  | processing
  | sent
  | failed
  | cancelled
deriving DecidableEq

/-- The `last_error` values the processor writes: the fixed profile-not-
available message, or a transport error (its text reduced to a code). -/
inductive LastErr
  | profileUnavailable
  | transportErr (code : Nat)
deriving DecidableEq

/-- A queue item reduced to the fields `_process_queue_item` touches. -/
structure QItem where
  status : QStatus
  attemptCount : Nat
  maxAttempts : Nat
  scheduledSendAt : ℚ
  lastError : Option LastErr
deriving DecidableEq

/-- `MessageService._process_queue_item` (message_service.py, lines
398-480) restricted to the queue-item state machine: mark processing and
increment the attempt count; fail immediately if the profile is missing
or not active; on transport success mark sent; on transport failure mark
failed when `attempt_count >= max_attempts`, else return to waiting with
`scheduled_send_at = now + 5 * 2 ** attempt_count` (the base delay is the
literal `5` in the source). -/
def processQueueItemStep (it : QItem) (profileActive : Bool) (success : Bool)
    (errCode : Nat) (now : ℚ) : QItem :=
  let it2 : QItem := { it with status := QStatus.processing, attemptCount := it.attemptCount + 1 }
  if ¬ profileActive then
    { it2 with status := QStatus.failed, lastError := some LastErr.profileUnavailable }
  else if success then
    { it2 with status := QStatus.sent }
  else if it2.maxAttempts ≤ it2.attemptCount then
    { it2 with status := QStatus.failed, lastError := some (LastErr.transportErr errCode) }
  else
    { it2 with
      status := QStatus.waiting,
      scheduledSendAt := now + 5 * 2 ^ it2.attemptCount,
      lastError := some (LastErr.transportErr errCode) }

/-- Modelled from the spec's words for comparison in claim C8: the retry
backoff the spec asserts, `now + base_delay * 2 ** attempt_count` with
`base_delay` the package's configured `retry_delay_seconds`. -/
def specRetryBackoff (pkg : PackageCfg) (attemptCount : Nat) (now : ℚ) : ℚ :=
  now + (pkg.retryDelaySeconds : ℚ) * 2 ^ attemptCount

/-- A sweep sequence: the processor only picks up items in status
`waiting` (`process_queue` selects `status == "waiting"`), so a step only
applies to a waiting item; each step carries the profile-active flag, the
transport outcome, a transport error code, and the wall-clock time. -/
def runQueue (it : QItem) (steps : List (Bool × Bool × Nat × ℚ)) : QItem :=
  steps.foldl
    (fun cur s =>
      if cur.status = QStatus.waiting then processQueueItemStep cur s.1 s.2.1 s.2.2.1 s.2.2.2
      else cur)
    it

/-- The retry-bound invariant of the queue-item state machine: the attempt
count never exceeds `max_attempts`; a waiting item still has attempts
left; and an item that failed for any reason other than an unavailable
profile did so with `attempt_count = max_attempts` exactly. -/
def retryInv (it : QItem) : Prop :=
  it.attemptCount ≤ it.maxAttempts ∧
  (it.status = QStatus.waiting → it.attemptCount < it.maxAttempts) ∧
  (it.status = QStatus.failed → it.lastError ≠ some LastErr.profileUnavailable →
    it.attemptCount = it.maxAttempts)

instance (it : QItem) : Decidable (retryInv it) :=
  inferInstanceAs (Decidable (_ ∧ _ ∧ _))

/-! ## Profile statistics update (`MessageService._update_profile_stats`) -/

/-- The `ProfileStatistics` columns `_update_profile_stats` touches. -/
structure PStats where
  sentTotal : Nat
  sentToday : Nat
  sentHour : Nat
  sent3Hours : Nat
  failedToday : Nat
  failedHour : Nat
  successRate24h : ℚ
  avgResponseMs : ℚ
deriving DecidableEq

/-- Python's `round(x)`: round half to even. -/
def roundHalfEven (x : ℚ) : ℤ :=
  let f := ⌊x⌋
  let r := x - f
  if r < 1 / 2 then f
  else if 1 / 2 < r then f + 1
  else if Even f then f else f + 1

/-- Python's `round(x, 2)`. -/
def round2 (x : ℚ) : ℚ :=
  (roundHalfEven (x * 100) : ℚ) / 100

/-- `MessageService._update_profile_stats` (message_service.py, lines
518-552): increment all sent counters unconditionally, increment the
failed counters on failure, recompute `success_rate_24h` as
`round(((total_today - failed_today) / total_today) * 100, 2)`, and fold
the response time into the running average. -/
def updateProfileStats (st : PStats) (success : Bool) (responseTimeMs : ℚ) : PStats :=
  let st1 : PStats :=
    { st with
      sentTotal := st.sentTotal + 1, sentToday := st.sentToday + 1,
      sentHour := st.sentHour + 1, sent3Hours := st.sent3Hours + 1 }
  let st2 : PStats :=
    if success then st1
    else { st1 with failedToday := st1.failedToday + 1, failedHour := st1.failedHour + 1 }
  let st3 : PStats :=
    if 0 < st2.sentToday then
      { st2 with
        successRate24h :=
          round2 ((((st2.sentToday : ℚ) - (st2.failedToday : ℚ)) / (st2.sentToday : ℚ)) * 100) }
    else st2
  if 0 < responseTimeMs then
    if st3.avgResponseMs = 0 then { st3 with avgResponseMs := responseTimeMs }
    else { st3 with avgResponseMs := (st3.avgResponseMs + responseTimeMs) / 2 }
  else st3

/-! ## Theorems -/

/-- Claim C1, amended: request-shape independence holds for the Global
Queue Scheduler component, `GlobalQueueService.schedule_recipients` — but
not for the scheduling loop that `MessageService.send_open_chat` (the
send path the application actually invokes; `schedule_recipients` has no
application caller) runs instead; see the counterexample.  For any fixed
prior persisted state, cooldown map and wall-clock time, scheduling a
distribution as one batch through `schedule_recipients` produces exactly
the same final queue state and the same ordered list of (profile,
recipient, scheduled_send_at) items — hence in particular the same
per-profile ordered timestamp sequences — as scheduling each recipient
one at a time, as single one-recipient calls, in the same (interleaved)
global order. -/
theorem claim1_request_shape_independence (now : ℚ) (st : GQState)
    (cds : List (Nat × ℚ)) (dist : List (Nat × List Nat)) :
    scheduleRecipients now st cds dist =
      scheduleOneByOne now st cds (interleaveRecipients dist) := by
  unfold scheduleRecipients scheduleOneByOne
  exact List.foldl_ext _ _ (st, []) (fun a b _ => rfl)

/-- Counterexample to claim C1 as stated: the scheduling loop of
`MessageService.send_open_chat` — the claim's cited executed send path —
is NOT request-shape independent.  Fixed prior state: one `waiting` item
for the profile at `t = 1000` (future), `now = 0`, cooldown 600, no
`last_message_at`.  A single 2-recipient batch schedules the recipients
at 1000 and 1600 (`base + cooldown * i` from the pending reference), but
the same two recipients as two sequential 1-recipient requests — each
reading `last_pending` from the state the previous request persisted —
are both scheduled at 1000, because the reference time takes the last
pending item's time without adding the cooldown.  The per-profile
timestamp sequences `[1000, 1600]` and `[1000, 1000]` differ. -/
theorem claim1_counterexample :
    (openChatRequest 0 [1000] none 600 [7, 8]).2.map (fun x => x.2) = [1000, 1600] ∧
    (openChatRequest 0 [1000] none 600 [7]).2.map (fun x => x.2) = [1000] ∧
    (openChatRequest 0 (openChatRequest 0 [1000] none 600 [7]).1 none 600 [8]).2.map
      (fun x => x.2) = [1000] ∧
    ([1000, 1600] : List ℚ) ≠ [1000, 1000] := by
  refine ⟨?_, ?_, ?_, by norm_num⟩ <;>
    norm_num [openChatRequest, openChatScheduleProfile, openChatReference, maxTime,
      List.enum, List.enumFrom]

/-- Claim C2: the per-profile cooldown spacing invariant FAILS on the
code.  In `MessageService.send_open_chat`, when the profile's last
`waiting` item is in the future, `reference_time` is set to that item's
`scheduled_send_at` without adding the cooldown, so the first newly
created item coincides with it.  Here: `now = 0`, one prior waiting item
at `t = 100`, cooldown 600, one new recipient — the new item is scheduled
at 100 as well, and the pairwise-spacing property fails (gap 0 < 600).
The second part shows the same defect in
`GlobalQueueService.get_global_next_slot`: a prior waiting item at
exactly `now` is ignored by the strict `> now` guard, so the new slot
collides with it. -/
theorem claim2_cooldown_spacing_violated :
    openChatScheduleProfile 0 (some 100) none 600 [7] = [(7, 100)] ∧
    ¬ pairSpacingOK 600
      (100 :: (openChatScheduleProfile 0 (some 100) none 600 [7]).map (fun x => x.2)) ∧
    getGlobalNextSlot 0 ⟨[0], [⟨0, 0⟩], fun _ => none⟩ 0 600 = 0 ∧
    ¬ pairSpacingOK 600 [0, getGlobalNextSlot 0 ⟨[0], [⟨0, 0⟩], fun _ => none⟩ 0 600] := by
  have hopen : openChatScheduleProfile 0 (some 100) none 600 [7] = [(7, 100)] := by
    norm_num [openChatScheduleProfile, openChatReference, List.enum, List.enumFrom]
  have hslot : getGlobalNextSlot 0 ⟨[0], [⟨0, 0⟩], fun _ => none⟩ 0 600 = 0 := by
    norm_num [getGlobalNextSlot, lastWaitingFor, globalLastWaiting, maxTime]
  refine ⟨hopen, ?_, hslot, ?_⟩
  · rw [hopen]
    simp only [pairSpacingOK, List.map_cons, List.map_nil, List.pairwise_cons]
    intro h
    have := h.1 100 (by simp)
    norm_num at this
  · rw [hslot]
    simp only [pairSpacingOK, List.pairwise_cons]
    intro h
    have := h.1 0 (by simp)
    norm_num at this

/-- Claim C3: the cross-profile spacing invariant FAILS on the code, on
the exact concrete scenario the spec gives (3 active profiles, 9 evenly
distributed recipients, cooldown 120s per profile).  Starting from a cold
package (no waiting items, no `last_message_at`) at `now = 0`,
`GlobalQueueService.schedule_recipients` schedules all nine items at
time 0, because `get_global_next_slot` only spaces against prior items
that are strictly in the future: gaps are 0, not the claimed ≥ 40s across
profiles and ≥ 120s within a profile. -/
theorem claim3_cross_profile_spacing_violated :
    ((scheduleRecipients 0 ⟨[0, 1, 2], [], fun _ => none⟩
        [(0, 120), (1, 120), (2, 120)]
        [(0, [1, 4, 7]), (1, [2, 5, 8]), (2, [3, 6, 9])]).2.map (fun x => x.2.2)) =
      [0, 0, 0, 0, 0, 0, 0, 0, 0] ∧
    ¬ pairSpacingOK 40
      (((scheduleRecipients 0 ⟨[0, 1, 2], [], fun _ => none⟩
          [(0, 120), (1, 120), (2, 120)]
          [(0, [1, 4, 7]), (1, [2, 5, 8]), (2, [3, 6, 9])]).2.filter
            (fun x => x.1 = 0 ∨ x.1 = 1)).map (fun x => x.2.2)) ∧
    ¬ pairSpacingOK 120
      (((scheduleRecipients 0 ⟨[0, 1, 2], [], fun _ => none⟩
          [(0, 120), (1, 120), (2, 120)]
          [(0, [1, 4, 7]), (1, [2, 5, 8]), (2, [3, 6, 9])]).2.filter
            (fun x => x.1 = 0)).map (fun x => x.2.2)) := by
  have hres :
      (scheduleRecipients 0 ⟨[0, 1, 2], [], fun _ => none⟩
          [(0, 120), (1, 120), (2, 120)]
          [(0, [1, 4, 7]), (1, [2, 5, 8]), (2, [3, 6, 9])]).2 =
        [(0, 1, 0), (1, 2, 0), (2, 3, 0), (0, 4, 0), (1, 5, 0), (2, 6, 0),
          (0, 7, 0), (1, 8, 0), (2, 9, 0)] := by
    norm_num [scheduleRecipients, interleaveRecipients, maxRecipients, scheduleStep,
      getGlobalNextSlot, lastWaitingFor, globalLastWaiting, maxTime, lookupCooldown,
      List.range_succ, List.filterMap_cons, List.foldl_cons, List.foldl_nil]
  refine ⟨by rw [hres]; norm_num, ?_, ?_⟩
  · rw [hres]
    simp only [pairSpacingOK]
    norm_num [List.filter, List.pairwise_cons]
  · rw [hres]
    simp only [pairSpacingOK]
    norm_num [List.filter, List.pairwise_cons]

theorem set_of_length_le {α : Type} (l : List α) (n : Nat) (a : α) (h : l.length ≤ n) :
    l.set n a = l := by
  induction l generalizing n with
  | nil => rfl
  | cons x t ih =>
    cases n with
    | zero => simp at h
    | succ m => simp only [List.set]; rw [ih m (by simpa using h)]

theorem getD_set_self (l : List (List Nat)) (k : Nat) (x : List Nat) (h : k < l.length) :
    (l.set k x).getD k [] = x := by
  induction l generalizing k with
  | nil => simp at h
  | cons a t ih =>
    cases k with
    | zero => rfl
    | succ m => simpa using ih m (by simpa using h)

theorem getD_set_of_ne (l : List (List Nat)) (k k' : Nat) (x : List Nat) (h : k ≠ k') :
    (l.set k x).getD k' [] = l.getD k' [] := by
  induction l generalizing k k' with
  | nil => rfl
  | cons a t ih =>
    cases k with
    | zero =>
      cases k' with
      | zero => exact absurd rfl h
      | succ m => rfl
    | succ m =>
      cases k' with
      | zero => rfl
      | succ m' => simpa using ih m m' (by omega)

theorem getD_map_const_nil (ps : List DProfile) (k : Nat) :
    ((ps.map fun _ => ([] : List Nat)).getD k []) = [] := by
  induction ps generalizing k with
  | nil => rfl
  | cons p t ih =>
    cases k with
    | zero => rfl
    | succ m => exact ih m

theorem rrAssignAt_mem (dist : List (List Nat)) (k' : Nat) (r' : Nat) (k : Nat) (x : Nat)
    (hx : x ∈ dist.getD k []) : x ∈ (rrAssignAt dist k' r').getD k [] := by
  by_cases hk : k' = k
  · subst hk
    by_cases hlt : k' < dist.length
    · rw [rrAssignAt, getD_set_self _ _ _ hlt]
      exact List.mem_append_left _ hx
    · rw [rrAssignAt, set_of_length_le _ _ _ (by omega)]
      exact hx
  · rw [rrAssignAt, getD_set_of_ne _ _ _ _ hk]
    exact hx

theorem rrAssignAux_mem (pkgDaily : Nat) (ps : List DProfile) (start : Nat) :
    ∀ (rest : List Nat) (dist : List (List Nat)) (i k : Nat) (x : Nat),
      x ∈ dist.getD k [] → x ∈ (rrAssignAux pkgDaily ps start dist i rest).getD k [] := by
  intro rest
  induction rest with
  | nil => intro dist i k x hx; simp only [rrAssignAux]; exact hx
  | cons r rest ih =>
    intro dist i k x hx
    simp only [rrAssignAux]
    split
    · exact ih _ _ _ _ (rrAssignAt_mem _ _ _ _ _ hx)
    · split
      · exact ih _ _ _ _ (rrAssignAt_mem _ _ _ _ _ hx)
      · exact ih _ _ _ _ hx

theorem rrAssignAux_assigns (pkgDaily : Nat) (ps : List DProfile) (start : Nat) :
    ∀ (rest : List Nat) (dist : List (List Nat)) (i : Nat),
      0 < ps.length → dist.length = ps.length →
      (∀ (k : Nat) (hk : k < ps.length),
        (ps.get ⟨k, hk⟩).sentToday + (ps.get ⟨k, hk⟩).pending +
          (dist.getD k []).length + rest.length ≤ effDaily pkgDaily (ps.get ⟨k, hk⟩)) →
      ∀ (j : Nat) (hj : j < rest.length),
        rest.get ⟨j, hj⟩ ∈
          (rrAssignAux pkgDaily ps start dist i rest).getD ((start + i + j) % ps.length) [] := by
  intro rest
  induction rest with
  | nil => intro dist i _ _ _ j hj; exact absurd hj (by simp)
  | cons r rest ih =>
    intro dist i hn hlen hcap j hj
    have hidx : (start + i) % ps.length < ps.length := Nat.mod_lt _ hn
    have hp : ps.get? ((start + i) % ps.length) =
        some (ps.get ⟨(start + i) % ps.length, hidx⟩) := List.get?_eq_get hidx
    have hroom : rrHasRoom pkgDaily ps dist ((start + i) % ps.length) = true := by
      rw [rrHasRoom, hp]
      have := hcap ((start + i) % ps.length) hidx
      simp only [decide_eq_true_eq]
      simp only [List.length_cons] at this
      omega
    have hstep : rrAssignAux pkgDaily ps start dist i (r :: rest) =
        rrAssignAux pkgDaily ps start
          (rrAssignAt dist ((start + i) % ps.length) r) (i + 1) rest := by
      simp only [rrAssignAux, hroom, if_true]
    rw [hstep]
    cases j with
    | zero =>
      have hmem : r ∈ (rrAssignAt dist ((start + i) % ps.length) r).getD
          ((start + i) % ps.length) [] := by
        rw [rrAssignAt, getD_set_self _ _ _ (by omega)]
        exact List.mem_append_right _ (by simp)
      simpa [Nat.add_zero] using
        rrAssignAux_mem pkgDaily ps start rest _ (i + 1) _ r hmem
    | succ j' =>
      have hlen' : (rrAssignAt dist ((start + i) % ps.length) r).length = ps.length := by
        rw [rrAssignAt, List.length_set]; exact hlen
      have hcap' : ∀ (k : Nat) (hk : k < ps.length),
          (ps.get ⟨k, hk⟩).sentToday + (ps.get ⟨k, hk⟩).pending +
            ((rrAssignAt dist ((start + i) % ps.length) r).getD k []).length + rest.length ≤
            effDaily pkgDaily (ps.get ⟨k, hk⟩) := by
        intro k hk
        by_cases hkidx : k = (start + i) % ps.length
        · subst hkidx
          rw [rrAssignAt, getD_set_self _ _ _ (by omega)]
          have := hcap _ hk
          simp only [List.length_append, List.length_cons, List.length_nil] at this ⊢
          omega
        · rw [rrAssignAt, getD_set_of_ne _ _ _ _ (by omega)]
          have := hcap k hk
          simp only [List.length_cons] at this
          omega
      have hres := ih (rrAssignAt dist ((start + i) % ps.length) r) (i + 1) hn hlen' hcap'
        j' (by simpa using Nat.lt_of_succ_lt_succ hj)
      have harith : start + (i + 1) + j' = start + i + (j' + 1) := by omega
      rw [harith] at hres
      simpa using hres

/-- Claim C4: the rotate (round_robin) strategy.  First part: whenever
every active profile has enough remaining daily capacity, the round-robin
assignment starts at index `(sum of sent_today + pending over all
profiles) mod profile_count` and recipient `i` lands on the profile at
index `(start_offset + i) mod profile_count`.  Second part: the spec's
concrete scenario — 2 active profiles, daily_limit 240, zero sent, four
sequential single-recipient requests (each creating one `waiting` item
that raises the next request's pending count) — yields A:{r1,r3},
B:{r2,r4}. -/
theorem claim4_rotate_start_offset :
    (∀ (pkgDaily : Nat) (ps : List DProfile) (rs : List Nat),
      0 < ps.length →
      (∀ p ∈ ps, p.sentToday + p.pending + rs.length ≤ effDaily pkgDaily p) →
      ∀ (i : Nat) (hi : i < rs.length),
        rs.get ⟨i, hi⟩ ∈
          (roundRobinLists pkgDaily ps rs).getD
            ((((ps.map (fun p => p.sentToday + p.pending)).sum % ps.length) + i) %
              ps.length) []) ∧
    roundRobin 240 [⟨0, 10, 0, 0, none⟩, ⟨1, 10, 0, 0, none⟩] [101] = [(0, [101])] ∧
    roundRobin 240 [⟨0, 10, 0, 1, none⟩, ⟨1, 10, 0, 0, none⟩] [102] = [(1, [102])] ∧
    roundRobin 240 [⟨0, 10, 0, 1, none⟩, ⟨1, 10, 0, 1, none⟩] [103] = [(0, [103])] ∧
    roundRobin 240 [⟨0, 10, 0, 2, none⟩, ⟨1, 10, 0, 1, none⟩] [104] = [(1, [104])] := by
  refine ⟨?_, by decide, by decide, by decide, by decide⟩
  intro pkgDaily ps rs hn hcap i hi
  have hcap0 : ∀ (k : Nat) (hk : k < ps.length),
      (ps.get ⟨k, hk⟩).sentToday + (ps.get ⟨k, hk⟩).pending +
        (((ps.map fun _ => ([] : List Nat))).getD k []).length + rs.length ≤
        effDaily pkgDaily (ps.get ⟨k, hk⟩) := by
    intro k hk
    rw [getD_map_const_nil]
    simpa using hcap (ps.get ⟨k, hk⟩) (ps.get_mem _ _)
  have h := rrAssignAux_assigns pkgDaily ps (rrStartOffset ps) rs
    (ps.map fun _ => ([] : List Nat)) 0 hn (by simp) hcap0 i hi
  rw [roundRobinLists, if_neg (by omega)]
  simpa [rrStartOffset, Nat.add_zero] using h

/-- Witness for claim C4's universally quantified part: with two fresh
profiles (no sent, no pending, package daily limit 240) and two
recipients, recipient 0 (`101`) lands on the profile at index 0 — the
start offset is `0 mod 2 = 0`. -/
theorem claim4_witness :
    (101 : Nat) ∈
      (roundRobinLists 240 [⟨0, 10, 0, 0, none⟩, ⟨1, 10, 0, 0, none⟩] [101, 102]).getD 0 [] := by
  have h := claim4_rotate_start_offset.1 240
    [⟨0, 10, 0, 0, none⟩, ⟨1, 10, 0, 0, none⟩] [101, 102]
    (by decide) (by decide) 0 (by decide)
  simpa using h

theorem addToDist_size (dist : List (Nat × List Nat)) (pid : Nat) (r : Nat)
    (h : pid ∈ dist.map Prod.fst) :
    distSize (addToDist dist pid r) = distSize dist + 1 := by
  induction dist with
  | nil => simp at h
  | cons x rest ih =>
    by_cases hx : x.1 = pid
    · simp only [addToDist, if_pos hx, distSize, List.map_cons, List.sum_cons,
        List.length_append, List.length_cons, List.length_nil]
      omega
    · have hmem : pid ∈ rest.map Prod.fst := by
        simp only [List.map_cons, List.mem_cons] at h
        exact h.resolve_left (fun he => hx he.symm)
      have h2 := ih hmem
      simp only [distSize] at h2
      simp only [addToDist, if_neg hx, distSize, List.map_cons, List.sum_cons]
      omega

theorem addToDist_keys (dist : List (Nat × List Nat)) (pid : Nat) (r : Nat) :
    (addToDist dist pid r).map Prod.fst = dist.map Prod.fst := by
  induction dist with
  | nil => rfl
  | cons x rest ih =>
    by_cases hx : x.1 = pid
    · simp [addToDist, hx]
    · simp [addToDist, hx, ih]

theorem foldl_min_mem (dist : List (Nat × List Nat)) :
    ∀ (t : List DProfile) (h : DProfile),
      (t.foldl (fun best q => if randLoad dist q < randLoad dist best then q else best) h) ∈
        h :: t := by
  intro t
  induction t with
  | nil => intro h; simp
  | cons q t ih =>
    intro h
    simp only [List.foldl_cons]
    by_cases hc : randLoad dist q < randLoad dist h
    · rw [if_pos hc]
      have := ih q
      simp only [List.mem_cons] at this ⊢
      tauto
    · rw [if_neg hc]
      have := ih h
      simp only [List.mem_cons] at this ⊢
      tauto

theorem minByLoad_mem (dist : List (Nat × List Nat)) (l : List DProfile) (m : DProfile)
    (h : minByLoad dist l = some m) : m ∈ l := by
  cases l with
  | nil => simp [minByLoad] at h
  | cons x t =>
    simp only [minByLoad, Option.some.injEq] at h
    rw [← h]
    exact foldl_min_mem dist t x

theorem distSize_filter (dist : List (Nat × List Nat)) :
    distSize (dist.filter (fun x => ¬ x.2.isEmpty)) = distSize dist := by
  induction dist with
  | nil => rfl
  | cons x rest ih =>
    cases hx : x.2 with
    | nil => simpa [distSize, List.filter_cons, hx] using ih
    | cons a t => simp [distSize, List.filter_cons, hx] at ih ⊢; omega

theorem distSize_init (ps : List DProfile) :
    distSize (ps.map (fun p => (p.pid, ([] : List Nat)))) = 0 := by
  induction ps with
  | nil => rfl
  | cons p t ih => simpa [distSize] using ih

theorem randomAssignAux_size (pkgDaily : Nat)
    (shuffles : Nat → List DProfile → List DProfile)
    (hsh : ∀ (k : Nat) (l : List DProfile), (shuffles k l).Perm l) (ps : List DProfile)
    (hne : ps ≠ []) :
    ∀ (rest : List Nat) (k : Nat) (avail : List DProfile) (dist : List (Nat × List Nat)),
      avail.Perm ps → (∀ p ∈ ps, p.pid ∈ dist.map Prod.fst) →
      distSize (randomAssignAux pkgDaily shuffles k avail dist rest) =
        distSize dist + rest.length := by
  intro rest
  induction rest with
  | nil => intro k avail dist _ _; simp [randomAssignAux]
  | cons r rest ih =>
    intro k avail dist hperm hkeys
    have hperm' : (shuffles k avail).Perm ps := (hsh k avail).trans hperm
    have hne' : shuffles k avail ≠ [] := by
      intro hq
      have := hperm'.length_eq
      rw [hq] at this
      exact hne (List.eq_nil_of_length_eq_zero this.symm)
    simp only [randomAssignAux]
    cases hfind : (shuffles k avail).find? (fun p => randHasRoom pkgDaily dist p) with
    | some p =>
      have hmem : p ∈ ps := hperm'.mem_iff.mp (List.mem_of_find?_eq_some hfind)
      have hkey : p.pid ∈ dist.map Prod.fst := hkeys p hmem
      rw [ih (k + 1) (shuffles k avail) (addToDist dist p.pid r) hperm'
        (fun q hq => by rw [addToDist_keys]; exact hkeys q hq)]
      rw [addToDist_size dist p.pid r hkey]
      simp [Nat.add_assoc, Nat.add_comm 1 rest.length]
    | none =>
      cases hmin : minByLoad dist (shuffles k avail) with
      | none =>
        cases hcase : shuffles k avail with
        | nil => exact absurd hcase hne'
        | cons a t => rw [hcase] at hmin; simp [minByLoad] at hmin
      | some m =>
        have hmem : m ∈ ps := hperm'.mem_iff.mp (minByLoad_mem _ _ _ hmin)
        have hkey : m.pid ∈ dist.map Prod.fst := hkeys m hmem
        rw [ih (k + 1) (shuffles k avail) (addToDist dist m.pid r) hperm'
          (fun q hq => by rw [addToDist_keys]; exact hkeys q hq)]
        rw [addToDist_size dist m.pid r hkey]
        simp [Nat.add_assoc, Nat.add_comm 1 rest.length]

theorem rrHasRoom_false_of_full (pkgDaily : Nat) (ps : List DProfile)
    (hfull : ∀ p ∈ ps, effDaily pkgDaily p ≤ p.sentToday + p.pending)
    (dist : List (List Nat)) (k : Nat) : rrHasRoom pkgDaily ps dist k = false := by
  cases hget : ps.get? k with
  | none => simp only [rrHasRoom]; rw [hget]
  | some p =>
    have hmem : p ∈ ps := List.get?_mem hget
    have := hfull p hmem
    simp only [rrHasRoom]
    rw [hget]
    simp only [decide_eq_false_iff_not]
    omega

theorem rrAssignAux_full_noop (pkgDaily : Nat) (ps : List DProfile) (start : Nat)
    (hfull : ∀ p ∈ ps, effDaily pkgDaily p ≤ p.sentToday + p.pending) :
    ∀ (rest : List Nat) (dist : List (List Nat)) (i : Nat),
      rrAssignAux pkgDaily ps start dist i rest = dist := by
  intro rest
  induction rest with
  | nil => intro dist i; rfl
  | cons r rest ih =>
    intro dist i
    simp only [rrAssignAux, rrHasRoom_false_of_full pkgDaily ps hfull, Bool.false_eq_true,
      if_false]
    rw [List.find?_eq_none.mpr (fun x _ => by simp)]
    exact ih dist (i + 1)

theorem zip_const_nil_filter (ps : List DProfile) :
    (((ps.map (·.pid)).zip (ps.map fun _ => ([] : List Nat))).filter
      (fun x => ¬ x.2.isEmpty)) = [] := by
  induction ps with
  | nil => rfl
  | cons p t ih => simpa [List.filter_cons] using ih

/-- Claim C5, amended.  The random strategy never drops a recipient: for
any shuffle behaviour (any permutation-producing shuffles, as
`random.shuffle` is) and any nonempty active-profile list, `_random`
returns a distribution whose sizes sum to the full recipient count — a
least-loaded fallback profile absorbs recipients when every profile is at
capacity.  The round-robin strategy uses a fallback profile with room
when the chosen profile is at capacity (third part: whenever the profile
at the round-robin index is full but some profile still has room, the
recipient is assigned to a profile that has room), but it silently omits
recipients when no profile has room: when every profile's
`sent_today + pending` load already meets its effective daily limit, the
returned map is empty, and no `NoEligibleProfiles` error is raised at
distribution time (only an empty active-profile list raises). -/
theorem claim5_no_silent_drop_amended :
    (∀ (pkgDaily : Nat) (ps : List DProfile)
        (shuffles : Nat → List DProfile → List DProfile) (rs : List Nat),
      ps ≠ [] → (∀ (k : Nat) (l : List DProfile), (shuffles k l).Perm l) →
      distSize (randomAssign pkgDaily ps shuffles rs) = rs.length) ∧
    (∀ (pkgDaily : Nat) (ps : List DProfile) (rs : List Nat),
      (∀ p ∈ ps, effDaily pkgDaily p ≤ p.sentToday + p.pending) →
      roundRobin pkgDaily ps rs = []) ∧
    (∀ (pkgDaily : Nat) (ps : List DProfile) (start : Nat) (dist : List (List Nat))
        (i : Nat) (r : Nat) (rest : List Nat),
      0 < ps.length → dist.length = ps.length →
      rrHasRoom pkgDaily ps dist ((start + i) % ps.length) = false →
      (∃ j, j < ps.length ∧
        rrHasRoom pkgDaily ps dist (((start + i) % ps.length + j + 1) % ps.length) = true) →
      ∃ pos, pos < ps.length ∧ rrHasRoom pkgDaily ps dist pos = true ∧
        r ∈ (rrAssignAux pkgDaily ps start dist i (r :: rest)).getD pos []) := by
  refine ⟨?_, ?_, ?_⟩
  · intro pkgDaily ps shuffles rs hne hsh
    rw [randomAssign, distSize_filter]
    rw [randomAssignAux_size pkgDaily shuffles hsh ps hne rs 0 ps
      (ps.map (fun p => (p.pid, ([] : List Nat)))) (List.Perm.refl ps)
      (fun p hp => by
        simp only [List.map_map]
        exact List.mem_map_of_mem (fun q => (q.pid, ([] : List Nat)).1) hp)]
    rw [distSize_init]
    omega
  · intro pkgDaily ps rs hfull
    cases hps : ps with
    | nil => subst hps; cases rs <;> rfl
    | cons p t =>
      subst hps
      rw [roundRobin, roundRobinLists, if_neg (by simp)]
      rw [rrAssignAux_full_noop _ _ _ hfull]
      exact zip_const_nil_filter _
  · intro pkgDaily ps start dist i r rest hn hlen hroom hex
    obtain ⟨j, hj, hjr⟩ := hex
    cases hfind : (List.range ps.length).find?
        (fun j => rrHasRoom pkgDaily ps dist (((start + i) % ps.length + j + 1) % ps.length))
        with
    | none =>
      exact absurd hjr (List.find?_eq_none.mp hfind j (List.mem_range.mpr hj))
    | some j₀ =>
      have hp : rrHasRoom pkgDaily ps dist (((start + i) % ps.length + j₀ + 1) % ps.length) =
          true := by
        have h2 := List.find?_some hfind
        simpa using h2
      refine ⟨((start + i) % ps.length + j₀ + 1) % ps.length, Nat.mod_lt _ hn, hp, ?_⟩
      have hstep : rrAssignAux pkgDaily ps start dist i (r :: rest) =
          rrAssignAux pkgDaily ps start
            (rrAssignAt dist (((start + i) % ps.length + j₀ + 1) % ps.length) r)
            (i + 1) rest := by
        simp only [rrAssignAux, hroom, Bool.false_eq_true, if_false, hfind]
      rw [hstep]
      apply rrAssignAux_mem
      rw [rrAssignAt, getD_set_self _ _ _ (by rw [hlen]; exact Nat.mod_lt _ hn)]
      exact List.mem_append_right _ (by simp)

/-- Counterexample to claim C5 as stated: one active profile (id 0) at
its daily capacity (limit 1, sent_today 1), one recipient `5`.  The
round-robin strategy returns an empty distribution map — recipient `5`
appears nowhere — and no error is raised (the embedding is a total
function returning the map). -/
theorem claim5_counterexample :
    roundRobin 1 [⟨0, 10, 1, 0, none⟩] [5] = [] ∧
    ¬ ∃ e ∈ roundRobin 1 [⟨0, 10, 1, 0, none⟩] [5], 5 ∈ e.2 := by
  refine ⟨by decide, by decide⟩

/-- Witness for claim C5's amended statement: at a concrete full profile,
the random strategy still assigns the one recipient (via the
least-loaded fallback) while round robin returns the empty map; and at
two profiles where the round-robin index picks the full one (profile 0:
daily 2, sent 2) while profile 1 has room, the recipient goes to a
profile with room via the fallback scan. -/
theorem claim5_witness :
    distSize (randomAssign 1 [⟨0, 10, 1, 0, none⟩] (fun _ l => l) [5]) = 1 ∧
    roundRobin 1 [⟨0, 10, 1, 0, none⟩] [5] = [] ∧
    (∃ pos, pos < 2 ∧
      rrHasRoom 2 [⟨0, 10, 2, 0, none⟩, ⟨1, 10, 0, 0, none⟩] [[], []] pos = true ∧
      9 ∈ (rrAssignAux 2 [⟨0, 10, 2, 0, none⟩, ⟨1, 10, 0, 0, none⟩] 0 [[], []] 0 [9]).getD
        pos []) := by
  refine ⟨?_, ?_, ?_⟩
  · exact claim5_no_silent_drop_amended.1 1 [⟨0, 10, 1, 0, none⟩] (fun _ l => l) [5]
      (by decide) (fun _ l => List.Perm.refl l)
  · exact claim5_no_silent_drop_amended.2.1 1 [⟨0, 10, 1, 0, none⟩] [5] (by decide)
  · exact claim5_no_silent_drop_amended.2.2 2 [⟨0, 10, 2, 0, none⟩, ⟨1, 10, 0, 0, none⟩]
      0 [[], []] 0 9 [] (by decide) (by decide) (by decide) ⟨0, by decide, by decide⟩

/-- Claim C6: cooldown base interval and clamp.  (1) For every package
with a positive daily limit, the base cooldown is
`(24 - freeze_duration_hours) * 60 / max_messages_per_day` minutes in
seconds.  (2) The final cooldown is always clamped into `[60, 2400]`
seconds, for all inputs.  (3) For `daily_limit = 120` and
`freeze_hours = 4` the base is 600 s, and when the jitter draw lies in
`[300, 900]`, the queue multiplier is 1, the trend adjustment is 1 and
the risk score is at most 20, the final cooldown lies in `[300, 900]`. -/
theorem claim6_cooldown_base_and_clamp :
    (∀ pkg : PackageCfg, 1 ≤ pkg.maxMessagesPerDay →
      baseCooldownSeconds pkg =
        (24 - (pkg.freezeDurationHours : ℚ)) * 60 / (pkg.maxMessagesPerDay : ℚ) * 60) ∧
    (∀ (pkg : PackageCfg) (risk : ℤ) (tq a2h : Nat) (j : ℚ),
      60 ≤ finalCooldownSeconds pkg risk tq a2h j ∧
      finalCooldownSeconds pkg risk tq a2h j ≤ 2400) ∧
    (∀ (pkg : PackageCfg) (risk : ℤ) (tq a2h : Nat) (j : ℚ),
      pkg.maxMessagesPerDay = 120 → pkg.freezeDurationHours = 4 →
      baseCooldownSeconds pkg = 600 ∧
      (300 ≤ j → j ≤ 900 → (queueMultiplier pkg tq).2 = 1 → trendAdjustment pkg a2h = 1 →
        risk ≤ 20 →
        300 ≤ finalCooldownSeconds pkg risk tq a2h j ∧
        finalCooldownSeconds pkg risk tq a2h j ≤ 900)) := by
  refine ⟨?_, ?_, ?_⟩
  · intro pkg h
    rw [baseCooldownSeconds, Nat.max_eq_left h]
    push_cast
    ring
  · intro pkg risk tq a2h j
    constructor
    · exact Int.le_floor.mpr (by push_cast; exact le_max_left _ _)
    · have hle : finalCooldownRat pkg risk tq a2h j ≤ 2400 :=
        max_le (by norm_num) (min_le_right _ _)
      simpa using Int.floor_le_floor hle
  · intro pkg risk tq a2h j hday hfreeze
    constructor
    · rw [baseCooldownSeconds, hday, hfreeze]
      norm_num
    · intro hj1 hj2 hqm htrend hrisk
      have hrm : riskMultiplier risk = 1 := by
        rw [riskMultiplier, if_neg (by omega), if_neg (by omega), if_neg (by omega)]
      have hx : finalCooldownRat pkg risk tq a2h j = j := by
        rw [finalCooldownRat, hqm, htrend, hrm, mul_one, mul_one, mul_one,
          min_eq_left (by linarith), max_eq_right (by linarith)]
      rw [finalCooldownSeconds, hx]
      constructor
      · exact Int.le_floor.mpr (by push_cast; linarith)
      · simpa using Int.floor_le_floor hj2

/-- Witness for claim C6 at a concrete package (freeze 4h, daily 120,
hourly 20, rush threshold 10 (multiplier 2), quiet threshold 5
(multiplier 1/2)), total queue size 8 (normal mode), 20 delivered in the
trailing 2h (on target), risk 0, jitter draw 450. -/
theorem claim6_witness :
    baseCooldownSeconds ⟨4, 120, 20, 10, 2, 5, 1 / 2, 3, 5⟩ = 600 ∧
    300 ≤ finalCooldownSeconds ⟨4, 120, 20, 10, 2, 5, 1 / 2, 3, 5⟩ 0 8 20 450 ∧
    finalCooldownSeconds ⟨4, 120, 20, 10, 2, 5, 1 / 2, 3, 5⟩ 0 8 20 450 ≤ 900 := by
  have h := claim6_cooldown_base_and_clamp.2.2 ⟨4, 120, 20, 10, 2, 5, 1 / 2, 3, 5⟩
    0 8 20 450 rfl rfl
  have h2 := h.2 (by norm_num) (by norm_num) (by norm_num [queueMultiplier])
    (by norm_num [trendAdjustment]) (by norm_num)
  exact ⟨h.1, h2.1, h2.2⟩

/-- Claim C7: the `_weighted` top-up loop does NOT terminate when every
profile is at capacity while leftover recipients remain.  Concrete
failing input: one profile (id 0, weight 1) already at its daily limit
(limit 1, sent_today 1), one recipient `5`.  The share allocation caps
the profile's slice at 0, recipient `5` is left over, and the
`while recipient_idx < len(recipients)` loop makes no progress in any
pass: for every fuel bound the fuelled embedding reports
non-termination.  (The sibling `_smart` strategy guards this loop with an
`assigned` flag and breaks; `_weighted` has no such guard.) -/
theorem claim7_weighted_topup_nonterminating :
    ∀ fuel : Nat, weightedAssign 1 [⟨0, 1, 1, 0, none⟩] [5] fuel = none := by
  have key : ∀ m : Nat, wTopUp 1 [⟨0, 1, 1, 0, none⟩] [5] m [(0, [])] 0 = none := by
    intro m
    induction m with
    | zero => rfl
    | succ k ih => exact ih
  intro fuel
  have htw : ((([⟨0, 1, 1, 0, none⟩] : List DProfile).map fun p => max p.weightScore 1).sum : ℚ)
      = 1 := by
    simp
  have hinit : wInitAux 1 1 [5] [⟨0, 1, 1, 0, none⟩] 0 = ([(0, [])], 0) := by
    simp only [wInitAux, wShareOf, effDaily]
    norm_num
  simp only [weightedAssign, htw]
  rw [if_neg (by norm_num), hinit]
  rw [key fuel]
  rfl

/-- Claim C8, amended: on a transport failure with attempts left, the
queue item returns to `waiting` with
`scheduled_send_at = now + 5 * 2 ** attempt_count` — the backoff base
delay is the literal constant `5` in the source
(message_service.py line 478), not the package's configured
`retry_delay_seconds` — and the error is recorded in `last_error`. -/
theorem claim8_retry_backoff_amended (it : QItem) (errCode : Nat) (now : ℚ)
    (h : it.attemptCount + 1 < it.maxAttempts) :
    (processQueueItemStep it true false errCode now).status = QStatus.waiting ∧
    (processQueueItemStep it true false errCode now).scheduledSendAt =
      now + 5 * 2 ^ (it.attemptCount + 1) ∧
    (processQueueItemStep it true false errCode now).lastError =
      some (LastErr.transportErr errCode) := by
  simp only [processQueueItemStep]
  rw [if_neg (by simp), if_neg (by simp), if_neg (by omega)]
  exact ⟨rfl, rfl, rfl⟩

/-- Witness for claim C8: a concrete waiting item (attempt 0 of 3)
failing at `now = 2` is rescheduled to `2 + 5 * 2 = 12`. -/
theorem claim8_witness :
    (processQueueItemStep ⟨QStatus.waiting, 0, 3, 0, none⟩ true false 7 2).status =
      QStatus.waiting ∧
    (processQueueItemStep ⟨QStatus.waiting, 0, 3, 0, none⟩ true false 7 2).scheduledSendAt =
      2 + 5 * 2 ^ (0 + 1) ∧
    (processQueueItemStep ⟨QStatus.waiting, 0, 3, 0, none⟩ true false 7 2).lastError =
      some (LastErr.transportErr 7) :=
  claim8_retry_backoff_amended ⟨QStatus.waiting, 0, 3, 0, none⟩ 7 2 (by norm_num)

/-- Counterexample to claim C8 as stated: configure the package with
`retry_delay_seconds = 10`.  A first transport failure at `now = 0`
reschedules the item to `0 + 5 * 2 = 10` (hardcoded base 5), while the
claimed formula `now + retry_delay_seconds * 2 ** attempt_count` gives
`0 + 10 * 2 = 20`. -/
theorem claim8_counterexample :
    (processQueueItemStep ⟨QStatus.waiting, 0, 3, 0, none⟩ true false 42 0).scheduledSendAt =
      10 ∧
    specRetryBackoff ⟨4, 120, 20, 10, 2, 5, 1 / 2, 3, 10⟩ 1 0 = 20 ∧
    (10 : ℚ) ≠ 20 := by
  refine ⟨?_, ?_, by norm_num⟩
  · simp only [processQueueItemStep]
    rw [if_neg (by simp), if_neg (by simp), if_neg (by omega)]
    norm_num
  · rw [specRetryBackoff]
    norm_num

theorem retryInv_guarded_step (it : QItem) (pa success : Bool) (e : Nat) (now : ℚ)
    (h : retryInv it) :
    retryInv (if it.status = QStatus.waiting then processQueueItemStep it pa success e now
      else it) := by
  by_cases hw : it.status = QStatus.waiting
  · rw [if_pos hw]
    have hlt : it.attemptCount < it.maxAttempts := h.2.1 hw
    cases pa with
    | false =>
      simp only [processQueueItemStep]
      rw [if_pos (by simp)]
      refine ⟨by simpa using Nat.succ_le_of_lt hlt, by simp, ?_⟩
      intro _ habs
      exact absurd rfl habs
    | true =>
      cases success with
      | true =>
        simp only [processQueueItemStep]
        rw [if_neg (by simp), if_pos (by simp)]
        exact ⟨by simpa using Nat.succ_le_of_lt hlt, by simp, by simp⟩
      | false =>
        simp only [processQueueItemStep]
        rw [if_neg (by simp), if_neg (by simp)]
        by_cases hm : it.maxAttempts ≤ it.attemptCount + 1
        · rw [if_pos hm]
          exact ⟨by simpa using Nat.succ_le_of_lt hlt, by simp, fun _ _ => by simp; omega⟩
        · rw [if_neg hm]
          exact ⟨by simpa using Nat.succ_le_of_lt hlt, fun _ => by simp; omega, by simp⟩
  · rw [if_neg hw]
    exact h

theorem runQueue_inv (steps : List (Bool × Bool × Nat × ℚ)) :
    ∀ it : QItem, retryInv it → retryInv (runQueue it steps) := by
  induction steps with
  | nil => intro it h; exact h
  | cons s rest ih =>
    intro it h
    simp only [runQueue, List.foldl_cons]
    exact ih _ (retryInv_guarded_step it s.1 s.2.1 s.2.2.1 s.2.2.2 h)

/-- Claim C9, amended.  Over every sweep sequence starting from a fresh
item (`attempt_count = 0`, `max_attempts ≥ 1`), the attempt count never
exceeds `max_attempts`, a `waiting` item always has attempts left, and an
item that reached `failed` with a transport error did so exactly at
`attempt_count = max_attempts`.  Second part: from any reachable
`waiting` state, a transport-failure step lands in `failed` if and only
if the incremented attempt count equals `max_attempts`.  However (see the
counterexample) an item whose profile is missing or inactive transitions
to `failed` immediately, with `attempt_count` possibly below
`max_attempts`. -/
theorem claim9_retry_bound_amended :
    (∀ (maxA : Nat) (t0 : ℚ) (steps : List (Bool × Bool × Nat × ℚ)), 1 ≤ maxA →
      retryInv (runQueue ⟨QStatus.waiting, 0, maxA, t0, none⟩ steps)) ∧
    (∀ (cur : QItem) (e : Nat) (now : ℚ), retryInv cur → cur.status = QStatus.waiting →
      ((processQueueItemStep cur true false e now).status = QStatus.failed ↔
        cur.attemptCount + 1 = cur.maxAttempts)) := by
  constructor
  · intro maxA t0 steps h1
    apply runQueue_inv
    exact ⟨Nat.zero_le _, fun _ => h1, fun hf => by simp at hf⟩
  · intro cur e now hinv hw
    have hlt : cur.attemptCount < cur.maxAttempts := hinv.2.1 hw
    simp only [processQueueItemStep]
    rw [if_neg (by simp), if_neg (by simp)]
    by_cases hm : cur.maxAttempts ≤ cur.attemptCount + 1
    · rw [if_pos hm]
      exact iff_of_true rfl (by omega)
    · rw [if_neg hm]
      exact iff_of_false (by simp) (by omega)

/-- Counterexample to claim C9 as stated ("transitions to `failed`
exactly when `attempt_count` equals `max_attempts`"): a fresh item with
`max_attempts = 3` whose profile is unavailable at its first processing
transitions to terminal `failed` with `attempt_count = 1 ≠ 3`. -/
theorem claim9_counterexample :
    (runQueue ⟨QStatus.waiting, 0, 3, 0, none⟩ [(false, true, 0, 0)]).status =
      QStatus.failed ∧
    (runQueue ⟨QStatus.waiting, 0, 3, 0, none⟩ [(false, true, 0, 0)]).attemptCount = 1 ∧
    (1 : Nat) ≠ 3 := by
  refine ⟨rfl, rfl, by norm_num⟩

/-- Witness for claim C9: the invariant after two failing transport
sweeps of a fresh `max_attempts = 3` item. -/
theorem claim9_witness :
    (1 : Nat) ≤ 3 ∧
    retryInv (runQueue ⟨QStatus.waiting, 0, 3, 0, none⟩
      [(true, false, 1, 0), (true, false, 2, 5)]) :=
  ⟨by norm_num,
    (claim9_retry_bound_amended.1 3 0 [(true, false, 1, 0), (true, false, 2, 5)]
      (by norm_num))⟩

/-- Claim C10, amended: `_update_profile_stats` increments
`messages_sent_total/today/hour/3hours` unconditionally — on failed
attempts as well as successes — and failures additionally increment the
failed counters; `success_rate_24h` becomes
`(sent_today - failed_today) / sent_today * 100` ROUNDED to two decimal
places (Python `round(..., 2)`), and a failed attempt raises the
`sent + pending`-based load used by the distribution capacity checks by
one, exactly as a success does. -/
theorem claim10_stats_update_amended (st : PStats) (success : Bool) (rt : ℚ) :
    (updateProfileStats st success rt).sentTotal = st.sentTotal + 1 ∧
    (updateProfileStats st success rt).sentToday = st.sentToday + 1 ∧
    (updateProfileStats st success rt).sentHour = st.sentHour + 1 ∧
    (updateProfileStats st success rt).sent3Hours = st.sent3Hours + 1 ∧
    (updateProfileStats st success rt).failedToday =
      (if success then st.failedToday else st.failedToday + 1) ∧
    (updateProfileStats st success rt).failedHour =
      (if success then st.failedHour else st.failedHour + 1) ∧
    (updateProfileStats st success rt).successRate24h =
      round2 ((((st.sentToday + 1 : Nat) : ℚ) -
        ((if success then st.failedToday else st.failedToday + 1 : Nat) : ℚ)) /
        ((st.sentToday + 1 : Nat) : ℚ) * 100) ∧
    (∀ (dist : List (Nat × List Nat)) (pid : Nat) (w : ℚ) (pending : Nat) (ov : Option Nat),
      randLoad dist ⟨pid, w, (updateProfileStats st success rt).sentToday, pending, ov⟩ =
        randLoad dist ⟨pid, w, st.sentToday, pending, ov⟩ + 1) := by
  have hchar : updateProfileStats st success rt =
      { sentTotal := st.sentTotal + 1, sentToday := st.sentToday + 1,
        sentHour := st.sentHour + 1, sent3Hours := st.sent3Hours + 1,
        failedToday := if success then st.failedToday else st.failedToday + 1,
        failedHour := if success then st.failedHour else st.failedHour + 1,
        successRate24h :=
          round2 ((((st.sentToday + 1 : Nat) : ℚ) -
            ((if success then st.failedToday else st.failedToday + 1 : Nat) : ℚ)) /
            ((st.sentToday + 1 : Nat) : ℚ) * 100),
        avgResponseMs :=
          if 0 < rt then
            (if st.avgResponseMs = 0 then rt else (st.avgResponseMs + rt) / 2)
          else st.avgResponseMs } := by
    cases success <;> simp only [updateProfileStats] <;> split_ifs <;>
      first
        | rfl
        | (exfalso; simp_all)
  rw [hchar]
  refine ⟨rfl, rfl, rfl, rfl, rfl, rfl, rfl, ?_⟩
  intro dist pid w pending ov
  simp only [randLoad]
  omega

/-- Counterexample to claim C10's exact success-rate formula: from
counters `sent_today = 2`, `failed_today = 0`, one failed attempt yields
`success_rate_24h = round((3 - 1) / 3 * 100, 2) = 66.67`, which differs
from the claimed exact value `(3 - 1) / 3 * 100 = 200/3 = 66.666...`. -/
theorem claim10_counterexample :
    (updateProfileStats ⟨2, 2, 2, 2, 0, 0, 100, 0⟩ false 0).successRate24h = 6667 / 100 ∧
    (6667 / 100 : ℚ) ≠ ((3 : ℚ) - 1) / 3 * 100 := by
  constructor
  · simp only [updateProfileStats]
    norm_num [round2, roundHalfEven]
  · norm_num

end BPB
